import Mathlib

/-!
Verification of the key-chord codec, default binding tables and remap loader
of `helix-term/src/keymap.rs`.

Strings are modelled as `List Char`; Rust byte lengths are recovered through
`Char.utf8Size`.  Fallible Rust code returns `Except`; the byte-slice panic
that `&function[0..1]` can raise on a non-ASCII first character is modelled
as the distinguished outcome `ParseError.SlicePanic`.
-/

namespace Keymap

/-- `crossterm::event::KeyCode`, the closed variant set used by the module. -/
inductive KeyCode where
  | Backspace
  | Enter
  | Left
  | Right
  | Up
  | Down
  | Home
  | End
  | PageUp
  | PageDown
  | Tab
  | BackTab
  | Delete
  | Insert
  | F (n : Nat)
  | Char (c : Char)
  | Null
  | Esc
deriving DecidableEq, Repr

/-- `crossterm::event::KeyModifiers`, restricted to the three flags the module
reads and writes (`SHIFT`, `ALT`, `CONTROL`). -/
structure KeyModifiers where
  shift : Bool
  alt : Bool
  control : Bool
deriving DecidableEq, Repr

/-- `KeyModifiers::NONE` / `KeyModifiers::empty()`. -/
def KeyModifiers.NONE : KeyModifiers := ⟨false, false, false⟩

/-- `crossterm::event::KeyEvent`: a chord, i.e. a key code plus modifiers.
The Rust newtype `RepresentableKeyEvent` is a transparent wrapper over this. -/
structure KeyEvent where
  code : KeyCode
  modifiers : KeyModifiers
deriving DecidableEq, Repr

/-- The distinct failure outcomes of `RepresentableKeyEvent::from_str`
(`anyhow!` messages in the source, plus the propagated `u8` integer-parse
error and the byte-slice panic). -/
inductive ParseError where
  | MissingCode
  | InvalidCode (t : List Char)
  | InvalidModifier (t : List Char)
  | RepeatedModifier (t : List Char)
  | InvalidFunctionKey (n : Nat)
  | IntParseError
  | SlicePanic
deriving DecidableEq, Repr

/-- Rust's `str::split(sep)`: always yields at least one (possibly empty)
segment; a trailing separator yields a trailing empty segment. -/
def splitSep (sep : Char) : List Char → List (List Char)
  | [] => [[]]
  | c :: rest =>
    match splitSep sep rest with
    | [] => [[c]]
    | t :: ts => if c = sep then [] :: t :: ts else (c :: t) :: ts

/-- Rust `str::len` of a `List Char` string: its UTF-8 byte length. -/
def byteLen (t : List Char) : Nat := (t.map Char.utf8Size).sum

/-- `str::parse::<u8>`: an optional leading `+` followed by one or more
ASCII digits, value below 256; anything else fails. -/
def parseU8 (t : List Char) : Option Nat :=
  let digits := match t with
    | '+' :: rest => rest
    | other => other
  if digits ≠ [] ∧ digits.all (fun c => c.isDigit) then
    let n := digits.foldl (fun a c => a * 10 + (c.toNat - 48)) 0
    if n < 256 then some n else none
  else none

/-- The code-token arm of `RepresentableKeyEvent::from_str`: the `match` on
the popped last segment.  Note the defective `"Up" => KeyCode::Down` arm and
the absence of any `"Down"` arm, both faithful to the source. -/
def parseCode (t : List Char) : Except ParseError KeyCode :=
  if t = ['B', 's'] then .ok .Backspace
  else if t = ['E', 'n', 't', 'e', 'r'] then .ok .Enter
  else if t = ['L', 'e', 'f', 't'] then .ok .Left
  else if t = ['R', 'i', 'g', 'h', 't'] then .ok .Right
  else if t = ['U', 'p'] then .ok .Down
  else if t = ['H', 'o', 'm', 'e'] then .ok .Home
  else if t = ['E', 'n', 'd'] then .ok .End
  else if t = ['P', 'a', 'g', 'e', 'U', 'p'] then .ok .PageUp
  else if t = ['P', 'a', 'g', 'e', 'D', 'o', 'w', 'n'] then .ok .PageDown
  else if t = ['T', 'a', 'b'] then .ok .Tab
  else if t = ['B', 'a', 'c', 'k', 'T', 'a', 'b'] then .ok .BackTab
  else if t = ['D', 'e', 'l'] then .ok .Delete
  else if t = ['I', 'n', 's', 'e', 'r', 't'] then .ok .Insert
  else if t = ['N', 'u', 'l', 'l'] then .ok .Null
  else if t = ['E', 's', 'c'] then .ok .Esc
  else if byteLen t = 1 then .ok (.Char (t.headD ' '))
  else if 1 < byteLen t then
    match t with
    | [] => .error (.InvalidCode t)
    | c :: rest =>
      if c.utf8Size = 1 then
        if c = 'F' then
          match parseU8 rest with
          | none => .error .IntParseError
          | some n =>
            if 0 < n ∧ n < 13 then .ok (.F n)
            else .error (.InvalidFunctionKey n)
        else .error (.InvalidCode t)
      else .error .SlicePanic
  else .error (.InvalidCode t)

/-- The modifier loop of `RepresentableKeyEvent::from_str`: each remaining
segment must be `S`, `A` or `C`, rejected as `InvalidModifier` otherwise, and
rejected as `RepeatedModifier` when its flag is already set. -/
def parseModifiers : List (List Char) → KeyModifiers → Except ParseError KeyModifiers
  | [], m => .ok m
  | t :: rest, m =>
    if t = ['S'] then
      if m.shift then .error (.RepeatedModifier t)
      else parseModifiers rest { m with shift := true }
    else if t = ['A'] then
      if m.alt then .error (.RepeatedModifier t)
      else parseModifiers rest { m with alt := true }
    else if t = ['C'] then
      if m.control then .error (.RepeatedModifier t)
      else parseModifiers rest { m with control := true }
    else .error (.InvalidModifier t)

/-- `impl FromStr for RepresentableKeyEvent`: split on `-`, pop the last
segment as the code token, parse it, then fold the remaining segments as
modifiers left to right. -/
def from_str (s : List Char) : Except ParseError KeyEvent :=
  let tokens := splitSep '-' s
  match tokens.getLast? with
  | none => .error .MissingCode
  | some codeTok =>
    match parseCode codeTok with
    | .error e => .error e
    | .ok code =>
      match parseModifiers tokens.dropLast KeyModifiers.NONE with
      | .error e => .error e
      | .ok modifiers => .ok ⟨code, modifiers⟩

/-- The code half of `impl Display for RepresentableKeyEvent`. -/
def fmtCode : KeyCode → List Char
  | .Backspace => ['B', 's']
  | .Enter => ['E', 'n', 't', 'e', 'r']
  | .Left => ['L', 'e', 'f', 't']
  | .Right => ['R', 'i', 'g', 'h', 't']
  | .Up => ['U', 'p']
  | .Down => ['D', 'o', 'w', 'n']
  | .Home => ['H', 'o', 'm', 'e']
  | .End => ['E', 'n', 'd']
  | .PageUp => ['P', 'a', 'g', 'e', 'U', 'p']
  | .PageDown => ['P', 'a', 'g', 'e', 'D', 'o', 'w', 'n']
  | .Tab => ['T', 'a', 'b']
  | .BackTab => ['B', 'a', 'c', 'k', 'T', 'a', 'b']
  | .Delete => ['D', 'e', 'l']
  | .Insert => ['I', 'n', 's', 'e', 'r', 't']
  | .F n => 'F' :: Nat.toDigits 10 n
  | .Char c => [c]
  | .Null => ['N', 'u', 'l', 'l']
  | .Esc => ['E', 's', 'c']

/-- The modifier prefix emitted by `Display`: `S-`, `A-`, `C-` in that fixed
order, each only when the flag is present. -/
def modsText (m : KeyModifiers) : List Char :=
  (if m.shift then ['S', '-'] else [])
    ++ (if m.alt then ['A', '-'] else [])
    ++ (if m.control then ['C', '-'] else [])

/-- `impl Display for RepresentableKeyEvent`: modifier prefix then code. -/
def fmtKey (k : KeyEvent) : List Char := modsText k.modifiers ++ fmtCode k.code

/-- The opaque editor actions (`crate::commands`) referenced by the default
tables; only identity matters. -/
inductive Command where
  | move_char_left
  | move_line_down
  | move_line_up
  | move_char_right
  | find_till_char
  | find_next_char
  | till_prev_char
  | find_prev_char
  | replace
  | replace_with_yanked
  | move_line_start
  | move_line_end
  | move_next_word_start
  | move_prev_word_start
  | move_next_word_end
  | select_mode
  | goto_mode
  | command_mode
  | insert_mode
  | prepend_to_line
  | append_mode
  | append_to_line
  | open_below
  | open_above
  | delete_selection
  | change_selection
  | select_regex
  | split_selection_on_newline
  | split_selection
  | collapse_selection
  | flip_selections
  | select_all
  | select_line
  | extend_line
  | match_brackets
  | left_bracket_mode
  | right_bracket_mode
  | search
  | search_next
  | extend_search_next
  | search_selection
  | undo
  | redo
  | yank
  | paste_after
  | paste_before
  | indent
  | unindent
  | format_selections
  | join_selections
  | keep_selections
  | keep_primary_selection
  | normal_mode
  | page_up
  | page_down
  | half_page_up
  | half_page_down
  | window_mode
  | toggle_comments
  | hover
  | jump_forward
  | jump_backward
  | space_mode
  | view_mode
  | select_register
  | extend_char_left
  | extend_line_down
  | extend_line_up
  | extend_char_right
  | extend_next_word_start
  | extend_prev_word_start
  | extend_next_word_end
  | extend_till_char
  | extend_next_char
  | extend_till_prev_char
  | extend_prev_char
  | extend_line_start
  | extend_line_end
  | exit_select_mode
  | insert_delete_char_backward
  | insert_delete_char_forward
  | insert_insert_newline
  | insert_insert_tab
  | completion
  | insert_delete_word_backward
deriving DecidableEq, Repr

/-- `helix_view::document::Mode`, restricted to the variants the module
names. -/
inductive Mode where
  | Normal
  | Select
  | Insert
deriving DecidableEq, Repr

/-- A `HashMap<KeyEvent, Command>` modelled extensionally as an association
list with in-place-replacing insert. -/
abbrev Keymap' := List (KeyEvent × Command)

/-- `HashMap::insert`: replace the binding of an existing key, else append. -/
def insertKV : Keymap' → KeyEvent → Command → Keymap'
  | [], k, v => [(k, v)]
  | (k', v') :: rest, k, v =>
    if k = k' then (k, v) :: rest else (k', v') :: insertKV rest k v

/-- `HashMap::get`. -/
def findKV : Keymap' → KeyEvent → Option Command
  | [], _ => none
  | (k', v') :: rest, k => if k = k' then some v' else findKV rest k

/-- Insert a whole list of pairs in order (the `hashmap!` literal and
`HashMap::extend` semantics: last writer wins). -/
def insertAll (m : Keymap') (l : List (KeyEvent × Command)) : Keymap' :=
  l.foldl (fun m p => insertKV m p.1 p.2) m

/-- Shorthand for a no-modifier chord, as the `key!` macro builds. -/
def key (c : Char) : KeyEvent := ⟨.Char c, .NONE⟩

/-- Shorthand for a control chord, as the `ctrl!` macro builds. -/
def ctrl (c : Char) : KeyEvent := ⟨.Char c, ⟨false, false, true⟩⟩

/-- Shorthand for an alt chord, as the `alt!` macro builds. -/
def alt (c : Char) : KeyEvent := ⟨.Char c, ⟨false, true, false⟩⟩

/-- Shorthand for a bare (no-modifier) non-character chord. -/
def bare (c : KeyCode) : KeyEvent := ⟨c, .NONE⟩

set_option maxHeartbeats 2000000 in
/-- The `hashmap!` literal that builds the Normal-mode table in `default()`,
as the ordered list of insertions it performs (source order, duplicates
included). -/
def normalList : List (KeyEvent × Command) := [
  (key 'h', .move_char_left),
  (key 'j', .move_line_down),
  (key 'k', .move_line_up),
  (key 'l', .move_char_right),
  (bare .Left, .move_char_left),
  (bare .Down, .move_line_down),
  (bare .Up, .move_line_up),
  (bare .Right, .move_char_right),
  (key 't', .find_till_char),
  (key 'f', .find_next_char),
  (key 'T', .till_prev_char),
  (key 'F', .find_prev_char),
  (key 'r', .replace),
  (key 'R', .replace_with_yanked),
  (bare .Home, .move_line_start),
  (bare .End, .move_line_end),
  (key 'w', .move_next_word_start),
  (key 'b', .move_prev_word_start),
  (key 'e', .move_next_word_end),
  (key 'v', .select_mode),
  (key 'g', .goto_mode),
  (key ':', .command_mode),
  (key 'i', .insert_mode),
  (key 'I', .prepend_to_line),
  (key 'a', .append_mode),
  (key 'A', .append_to_line),
  (key 'o', .open_below),
  (key 'O', .open_above),
  (key 'd', .delete_selection),
  (key 'c', .change_selection),
  (key 's', .select_regex),
  (alt 's', .split_selection_on_newline),
  (key 'S', .split_selection),
  (key ';', .collapse_selection),
  (alt ';', .flip_selections),
  (key '%', .select_all),
  (key 'x', .select_line),
  (key 'X', .extend_line),
  (key 'm', .match_brackets),
  (key '[', .left_bracket_mode),
  (key ']', .right_bracket_mode),
  (key '/', .search),
  (key 'n', .search_next),
  (key 'N', .extend_search_next),
  (key '*', .search_selection),
  (key 'u', .undo),
  (key 'U', .redo),
  (key 'y', .yank),
  (key 'p', .paste_after),
  (key 'P', .paste_before),
  (key '>', .indent),
  (key '<', .unindent),
  (key '=', .format_selections),
  (key 'J', .join_selections),
  (key 'K', .keep_selections),
  (key ' ', .keep_primary_selection),
  (bare .Esc, .normal_mode),
  (bare .PageUp, .page_up),
  (ctrl 'b', .page_up),
  (bare .PageDown, .page_down),
  (ctrl 'f', .page_down),
  (ctrl 'u', .half_page_up),
  (ctrl 'd', .half_page_down),
  (ctrl 'w', .window_mode),
  (ctrl 'c', .toggle_comments),
  (key 'K', .hover),
  (bare .Tab, .jump_forward),
  (ctrl 'o', .jump_backward),
  (key ' ', .space_mode),
  (key 'z', .view_mode),
  (key '"', .select_register)]

/-- The override/addition list `select.extend(...)` applies on top of the
cloned Normal table in `default()` (source order; its keys are distinct, so
the arbitrary `HashMap::into_iter` order of the temporary map is
immaterial). -/
def selectOverrides : List (KeyEvent × Command) := [
  (key 'h', .extend_char_left),
  (key 'j', .extend_line_down),
  (key 'k', .extend_line_up),
  (key 'l', .extend_char_right),
  (bare .Left, .extend_char_left),
  (bare .Down, .extend_line_down),
  (bare .Up, .extend_line_up),
  (bare .Right, .extend_char_right),
  (key 'w', .extend_next_word_start),
  (key 'b', .extend_prev_word_start),
  (key 'e', .extend_next_word_end),
  (key 't', .extend_till_char),
  (key 'f', .extend_next_char),
  (key 'T', .extend_till_prev_char),
  (key 'F', .extend_prev_char),
  (bare .Home, .extend_line_start),
  (bare .End, .extend_line_end),
  (bare .Esc, .exit_select_mode)]

/-- The Insert-mode `hashmap!` literal in `default()`. -/
def insertList : List (KeyEvent × Command) := [
  (bare .Esc, .normal_mode),
  (bare .Backspace, .insert_delete_char_backward),
  (bare .Delete, .insert_delete_char_forward),
  (bare .Enter, .insert_insert_newline),
  (bare .Tab, .insert_insert_tab),
  (ctrl 'x', .completion),
  (ctrl 'w', .insert_delete_word_backward)]

/-- The completed Normal-mode table. -/
def normal : Keymap' := insertAll [] normalList

/-- The completed Select-mode table: `normal.clone()` extended with the
override list. -/
def select : Keymap' := insertAll normal selectOverrides

/-- The completed Insert-mode table. -/
def insertKeymap : Keymap' := insertAll [] insertList

/-- The `Keymaps` (`HashMap<Mode, Keymap>`) value returned by `default()`. -/
def defaultKeymaps : List (Mode × Keymap') :=
  [(.Normal, normal), (.Select, select), (.Insert, insertKeymap)]

/-- Look a mode's table up in a `Keymaps` value. -/
def findMode : List (Mode × Keymap') → Mode → Option Keymap'
  | [], _ => none
  | (m', t) :: rest, m => if m = m' then some t else findMode rest m

/-- In-place mutation of the Select entry of a `Keymaps` value (inserting a
binding into the Select table), used to state that the Normal table is an
independent copy. -/
def mutateSelect (ks : List (Mode × Keymap')) (k : KeyEvent) (v : Command) :
    List (Mode × Keymap') :=
  ks.map (fun p => if p.1 = Mode.Select then (p.1, insertKV p.2 k v) else p)

/-- The failure outcomes of `parse_remaps` (an `anyhow::Result` in the
source): a document-level decode failure, the propagated `Mode::from_str`
failure, or a propagated chord-syntax failure. -/
inductive RemapError where
  | TomlError
  | UnknownMode (name : List Char)
  | KeyError (e : ParseError)
deriving DecidableEq, Repr

/-- Modelled from the spec: `Mode::from_str` lives in `helix-view`, outside
`src/`; per the spec, mode names are matched case-sensitively against the
canonical names `Normal`, `Select`, `Insert`, and any other name is an
unknown mode. -/
def Mode.from_str (s : List Char) : Option Mode :=
  if s = ['N', 'o', 'r', 'm', 'a', 'l'] then some .Normal
  else if s = ['S', 'e', 'l', 'e', 'c', 't'] then some .Select
  else if s = ['I', 'n', 's', 'e', 'r', 't'] then some .Insert
  else none

/-- Strip leading and trailing spaces from a line. -/
def trimSpaces (l : List Char) : List Char :=
  ((l.dropWhile (fun c => c = ' ')).reverse.dropWhile (fun c => c = ' ')).reverse

/-- The two-level decoded document: section name to list of key/value
string pairs, in document order. -/
abbrev TomlDoc := List (List Char × List (List Char × List Char))

/-- Modelled from the spec: one step of decoding the remap document, which
the source delegates to the external `toml` crate.  Lines are processed in
order; `[Name]` opens a section; `key = "value"` adds a pair to the open
section; anything else (including a pair before any section) is a decode
failure. -/
def tomlGo : List (List Char) → Option (List Char × List (List Char × List Char)) →
    TomlDoc → Option TomlDoc
  | [], none, acc => some acc
  | [], some cur, acc => some (acc ++ [cur])
  | line :: rest, cur, acc =>
    if line.head? = some '[' then
      if line.getLast? = some ']' ∧ 2 ≤ line.length then
        let name := (line.drop 1).dropLast
        match cur with
        | none => tomlGo rest (some (name, [])) acc
        | some c => tomlGo rest (some (name, [])) (acc ++ [c])
      else none
    else
      match splitSep '=' line with
      | [lhs, rhs] =>
        let k := trimSpaces lhs
        let v := trimSpaces rhs
        if v.head? = some '"' ∧ v.getLast? = some '"' ∧ 2 ≤ v.length then
          match cur with
          | none => none
          | some c => tomlGo rest (some (c.1, c.2 ++ [(k, (v.drop 1).dropLast)])) acc
        else none
      | _ => none

/-- Modelled from the spec: decoding of the whole remap document into the
nested string map (`toml::from_str` into
`HashMap<String, HashMap<String, String>>` in the source). -/
def parseToml (doc : List Char) : Option TomlDoc :=
  let lines := ((splitSep '\n' doc).map trimSpaces).filter (fun l => l ≠ [])
  tomlGo lines none []

/-- A `Remap` (`HashMap<KeyEvent, KeyEvent>`) modelled as an association
list with in-place-replacing insert. -/
abbrev Remap := List (KeyEvent × KeyEvent)

/-- `HashMap::insert` on a `Remap`. -/
def insertRemap : Remap → KeyEvent → KeyEvent → Remap
  | [], k, v => [(k, v)]
  | (k', v') :: rest, k, v =>
    if k = k' then (k, v) :: rest else (k', v') :: insertRemap rest k v

/-- The inner loop of `parse_remaps`: parse each source/target chord string
and insert the pair, propagating chord-syntax failures. -/
def parseRemapPairs : List (List Char × List Char) → Remap → Except RemapError Remap
  | [], acc => .ok acc
  | (s0, t0) :: rest, acc =>
    match from_str s0 with
    | .error e => .error (.KeyError e)
    | .ok sk =>
      match from_str t0 with
      | .error e => .error (.KeyError e)
      | .ok tk => parseRemapPairs rest (insertRemap acc sk tk)

/-- A `Remaps` (`HashMap<Mode, Remap>`) value. -/
abbrev Remaps := List (Mode × Remap)

/-- `HashMap::insert` on a `Remaps`. -/
def insertRemaps : Remaps → Mode → Remap → Remaps
  | [], m, r => [(m, r)]
  | (m', r') :: rest, m, r =>
    if m = m' then (m, r) :: rest else (m', r') :: insertRemaps rest m r

/-- The outer loop of `parse_remaps`: resolve each section's mode name,
failing with an unknown-mode error, then build that mode's remap table. -/
def remapsGo : TomlDoc → Remaps → Except RemapError Remaps
  | [], acc => .ok acc
  | (modeName, pairs) :: rest, acc =>
    match Mode.from_str modeName with
    | none => .error (.UnknownMode modeName)
    | some mode =>
      match parseRemapPairs pairs [] with
      | .error e => .error e
      | .ok remap => remapsGo rest (insertRemaps acc mode remap)

/-- `parse_remaps`: decode the document, then build the per-mode remap
tables. -/
def parse_remaps (doc : List Char) : Except RemapError Remaps :=
  match parseToml doc with
  | none => .error .TomlError
  | some sections => remapsGo sections []

/-- The modifier segments that the `Display` prefix contributes when the
formatted chord is split on `-` again. -/
def modTokens (m : KeyModifiers) : List (List Char) :=
  (if m.shift then [['S']] else [])
    ++ (if m.alt then [['A']] else [])
    ++ (if m.control then [['C']] else [])

/-- The three accepted modifier segments `S`, `A`, `C`. -/
def modifierTokens : List (List Char) := [['S'], ['A'], ['C']]

/-- Set the modifier flag named by a token (`modifiers.insert(flag)`). -/
def applyFlag (m : KeyModifiers) (t : List Char) : KeyModifiers :=
  if t = ['S'] then { m with shift := true }
  else if t = ['A'] then { m with alt := true }
  else if t = ['C'] then { m with control := true }
  else m

/-- Read the modifier flag named by a token (`modifiers.contains(flag)`). -/
def hasFlag (m : KeyModifiers) (t : List Char) : Bool :=
  if t = ['S'] then m.shift
  else if t = ['A'] then m.alt
  else if t = ['C'] then m.control
  else false

/-- The parse-direction control-key name table as the spec lists it,
including the defective pairing of the token `Up` with the `Down` code, in
source order. -/
def codeNameTable : List (List Char × KeyCode) := [
  (['B', 's'], .Backspace),
  (['E', 'n', 't', 'e', 'r'], .Enter),
  (['L', 'e', 'f', 't'], .Left),
  (['R', 'i', 'g', 'h', 't'], .Right),
  (['U', 'p'], .Down),
  (['H', 'o', 'm', 'e'], .Home),
  (['E', 'n', 'd'], .End),
  (['P', 'a', 'g', 'e', 'U', 'p'], .PageUp),
  (['P', 'a', 'g', 'e', 'D', 'o', 'w', 'n'], .PageDown),
  (['T', 'a', 'b'], .Tab),
  (['B', 'a', 'c', 'k', 'T', 'a', 'b'], .BackTab),
  (['D', 'e', 'l'], .Delete),
  (['I', 'n', 's', 'e', 'r', 't'], .Insert),
  (['N', 'u', 'l', 'l'], .Null),
  (['E', 's', 'c'], .Esc)]

/-- Code-token recognition as the amended claim words it, in priority
order: (1) exact lookup in the fixed control-key name table; (2) a token of
byte length one is `Char` of its character; (3) a longer token whose
single-byte first character is `F` is decided by the `u8` parse of its
suffix (any digit count, optional leading `+`) and the `1..=12` range check,
with an out-of-range value an invalid function key and an unparseable
suffix an integer-parse failure; a longer token with a single-byte first
character other than `F` is an invalid code; a longer token with a
multi-byte first character trips the byte-slice panic; anything else is an
invalid code. -/
def recognizeCode (t : List Char) : Except ParseError KeyCode :=
  match codeNameTable.find? (fun p => decide (p.1 = t)) with
  | some p => .ok p.2
  | none =>
    if byteLen t = 1 then .ok (.Char (t.headD ' '))
    else if 1 < byteLen t then
      match t with
      | [] => .error (.InvalidCode t)
      | c :: rest =>
        if c.utf8Size = 1 then
          if c = 'F' then
            match parseU8 rest with
            | none => .error .IntParseError
            | some n =>
              if 0 < n ∧ n < 13 then .ok (.F n)
              else .error (.InvalidFunctionKey n)
          else .error (.InvalidCode t)
        else .error .SlicePanic
    else .error (.InvalidCode t)

/-- Classifier used to state that a parse outcome is an invalid-function-key
failure. -/
def isInvalidFunctionKeyErr : Except ParseError KeyEvent → Bool
  | .error (.InvalidFunctionKey _) => true
  | _ => false

end Keymap

deriving instance DecidableEq for Except

namespace Keymap

lemma splitSep_ne_nil (sep : Char) (s : List Char) : splitSep sep s ≠ [] := by
  cases s with
  | nil => simp [splitSep]
  | cons c rest =>
    simp only [splitSep]
    rcases h : splitSep sep rest with _ | ⟨t, ts⟩
    · simp
    · by_cases hc : c = sep <;> simp [hc]

lemma splitSep_cons_self (sep : Char) (rest : List Char) :
    splitSep sep (sep :: rest) = [] :: splitSep sep rest := by
  obtain ⟨t, ts, h⟩ := List.exists_cons_of_ne_nil (splitSep_ne_nil sep rest)
  simp [splitSep, h]

lemma splitSep_pair (sep c : Char) (hc : c ≠ sep) (rest : List Char) :
    splitSep sep (c :: sep :: rest) = [c] :: splitSep sep rest := by
  conv_lhs => rw [splitSep]
  rw [splitSep_cons_self]
  simp [hc]

lemma splitSep_no_sep (sep : Char) (t : List Char) (h : sep ∉ t) (hne : t ≠ []) :
    splitSep sep t = [t] := by
  induction t with
  | nil => exact absurd rfl hne
  | cons c rest ih =>
    have hc : c ≠ sep := fun hcc => h (by simp [hcc])
    rcases rest with _ | ⟨d, rest'⟩
    · simp [splitSep, hc]
    · have hrest : sep ∉ d :: rest' := fun hm => h (List.mem_cons_of_mem _ hm)
      have hr := ih hrest (by simp)
      conv_lhs => rw [splitSep]
      rw [hr]
      simp [hc]

lemma splitSep_S (rest : List Char) :
    splitSep '-' ('S' :: '-' :: rest) = ['S'] :: splitSep '-' rest :=
  splitSep_pair '-' 'S' (by decide) rest

lemma splitSep_A (rest : List Char) :
    splitSep '-' ('A' :: '-' :: rest) = ['A'] :: splitSep '-' rest :=
  splitSep_pair '-' 'A' (by decide) rest

lemma splitSep_C (rest : List Char) :
    splitSep '-' ('C' :: '-' :: rest) = ['C'] :: splitSep '-' rest :=
  splitSep_pair '-' 'C' (by decide) rest

lemma splitSep_modsText (m : KeyModifiers) (t : List Char) (h : '-' ∉ t)
    (hne : t ≠ []) : splitSep '-' (modsText m ++ t) = modTokens m ++ [t] := by
  have hn := splitSep_no_sep '-' t h hne
  rcases m with ⟨s, a, c⟩
  cases s <;> cases a <;> cases c <;>
    simp [modsText, modTokens, splitSep_S, splitSep_A, splitSep_C, hn]

lemma parseModifiers_modTokens (m : KeyModifiers) :
    parseModifiers (modTokens m) KeyModifiers.NONE = .ok m := by
  rcases m with ⟨s, a, c⟩
  cases s <;> cases a <;> cases c <;> decide

lemma byteLen_singleton (c : Char) : byteLen [c] = c.utf8Size := by
  simp [byteLen]

lemma parseCode_single (c : Char) (h1 : c.utf8Size = 1) :
    parseCode [c] = .ok (.Char c) := by
  simp [parseCode, byteLen_singleton, h1]

/-- Parsing a formatted chord whose code token `t` is dash-free, nonempty
and recognized as `k` recovers the code and the exact modifier set. -/
lemma from_str_fmt (m : KeyModifiers) (t : List Char) (k : KeyCode)
    (h : '-' ∉ t) (hne : t ≠ []) (hk : parseCode t = .ok k) :
    from_str (modsText m ++ t) = .ok ⟨k, m⟩ := by
  simp only [from_str]
  rw [splitSep_modsText m t h hne]
  simp [List.getLast?_concat, hk, parseModifiers_modTokens]

/-- C1 counterexample: the chord `Char '-'` with no modifiers is neither
`Up` nor `Down`, yet it formats to the bare string `-`, which does not parse
back, so `parse (format c) = c` fails for it. -/
theorem claim_c1_counterexample :
    fmtKey ⟨.Char '-', KeyModifiers.NONE⟩ = ['-'] ∧
    from_str (fmtKey ⟨.Char '-', KeyModifiers.NONE⟩) ≠
      .ok ⟨.Char '-', KeyModifiers.NONE⟩ := by decide

/-- C1 (amended): for every chord built from the fixed vocabulary — any
modifier subset, any key code other than `Up` and `Down` (the known table
defect), with `Function(n)` restricted to `1 ≤ n ≤ 12` and `Char c`
restricted to single-byte characters other than `-` (a `-` code splits away;
a multi-byte code is never a single-byte segment and trips the byte-slice
panic) — parsing the formatted string gives the chord back. -/
theorem claim_c1_roundtrip (code : KeyCode) (m : KeyModifiers)
    (hup : code ≠ .Up) (hdown : code ≠ .Down)
    (hchar : ∀ c, code = .Char c → c ≠ '-' ∧ c.utf8Size = 1)
    (hfn : ∀ n, code = .F n → 1 ≤ n ∧ n ≤ 12) :
    from_str (fmtKey ⟨code, m⟩) = .ok ⟨code, m⟩ := by
  cases code with
  | Up => exact absurd rfl hup
  | Down => exact absurd rfl hdown
  | Char c =>
    obtain ⟨hc1, hc2⟩ := hchar c rfl
    simp only [fmtKey, fmtCode]
    exact from_str_fmt m [c] (.Char c) (by simpa using hc1.symm) (by simp)
      (parseCode_single c hc2)
  | F n =>
    obtain ⟨h1, h2⟩ := hfn n rfl
    simp only [fmtKey, fmtCode]
    interval_cases n <;>
      exact from_str_fmt m _ _ (by decide) (by decide) (by decide)
  | _ =>
    simp only [fmtKey, fmtCode]
    exact from_str_fmt m _ _ (by decide) (by decide) (by decide)

/-- C1 witness: the round-trip theorem applied to the concrete chord
`S-C-a`. -/
theorem claim_c1_witness :
    from_str (fmtKey ⟨.Char 'a', ⟨true, false, true⟩⟩) =
      .ok ⟨.Char 'a', ⟨true, false, true⟩⟩ :=
  claim_c1_roundtrip (.Char 'a') ⟨true, false, true⟩ (by decide) (by decide)
    (fun c h => by injection h with h'; subst h'; exact ⟨by decide, by decide⟩)
    (fun n h => KeyCode.noConfusion h)

/-- C2: the parser pairs the token `Up` with `KeyCode::Down` (no modifiers),
the formatter emits `Up` for `Up` and `Down` for `Down`, and the parser has
no accepting case for the token `Down`. -/
theorem claim_c2_up_down_defect :
    from_str ['U', 'p'] = .ok ⟨.Down, KeyModifiers.NONE⟩ ∧
    fmtCode .Up = ['U', 'p'] ∧
    fmtCode .Down = ['D', 'o', 'w', 'n'] ∧
    from_str ['D', 'o', 'w', 'n'] =
      .error (.InvalidCode ['D', 'o', 'w', 'n']) := by decide


lemma byteLen_cons (c : Char) (t : List Char) :
    byteLen (c :: t) = c.utf8Size + byteLen t := by simp [byteLen]

lemma byteLen_pos (t : List Char) (h : t ≠ []) : 0 < byteLen t := by
  rcases t with _ | ⟨c, rest⟩
  · exact absurd rfl h
  · rw [byteLen_cons]
    have := c.utf8Size_pos
    omega

/-- An `F`-prefixed token with a nonempty suffix always reaches the
function-key arm: its fate is decided entirely by `str::parse::<u8>` on the
suffix and the `1..=12` range check. -/
lemma parseCode_F (rest : List Char) (hne : rest ≠ []) :
    parseCode ('F' :: rest) =
      match parseU8 rest with
      | none => .error .IntParseError
      | some n =>
        if 0 < n ∧ n < 13 then .ok (.F n)
        else .error (.InvalidFunctionKey n) := by
  have hp := byteLen_pos rest hne
  have hF : ('F').utf8Size = 1 := by decide
  have h1 : ¬ byteLen ('F' :: rest) = 1 := by rw [byteLen_cons, hF]; omega
  have h2 : 1 < byteLen ('F' :: rest) := by rw [byteLen_cons, hF]; omega
  simp [parseCode, h1, h2, hF]

lemma parseCode_no_missing (t : List Char) :
    parseCode t ≠ .error .MissingCode := by
  unfold parseCode
  by_cases h1 : t = ['B', 's']
  · simp [h1]
  rw [if_neg h1]
  by_cases h2 : t = ['E', 'n', 't', 'e', 'r']
  · simp [h2]
  rw [if_neg h2]
  by_cases h3 : t = ['L', 'e', 'f', 't']
  · simp [h3]
  rw [if_neg h3]
  by_cases h4 : t = ['R', 'i', 'g', 'h', 't']
  · simp [h4]
  rw [if_neg h4]
  by_cases h5 : t = ['U', 'p']
  · simp [h5]
  rw [if_neg h5]
  by_cases h6 : t = ['H', 'o', 'm', 'e']
  · simp [h6]
  rw [if_neg h6]
  by_cases h7 : t = ['E', 'n', 'd']
  · simp [h7]
  rw [if_neg h7]
  by_cases h8 : t = ['P', 'a', 'g', 'e', 'U', 'p']
  · simp [h8]
  rw [if_neg h8]
  by_cases h9 : t = ['P', 'a', 'g', 'e', 'D', 'o', 'w', 'n']
  · simp [h9]
  rw [if_neg h9]
  by_cases h10 : t = ['T', 'a', 'b']
  · simp [h10]
  rw [if_neg h10]
  by_cases h11 : t = ['B', 'a', 'c', 'k', 'T', 'a', 'b']
  · simp [h11]
  rw [if_neg h11]
  by_cases h12 : t = ['D', 'e', 'l']
  · simp [h12]
  rw [if_neg h12]
  by_cases h13 : t = ['I', 'n', 's', 'e', 'r', 't']
  · simp [h13]
  rw [if_neg h13]
  by_cases h14 : t = ['N', 'u', 'l', 'l']
  · simp [h14]
  rw [if_neg h14]
  by_cases h15 : t = ['E', 's', 'c']
  · simp [h15]
  rw [if_neg h15]
  by_cases h16 : byteLen t = 1
  · simp [h16]
  rw [if_neg h16]
  by_cases h17 : 1 < byteLen t
  · rw [if_pos h17]
    rcases t with _ | ⟨c, rest⟩
    · simp
    · by_cases h18 : c.utf8Size = 1
      · by_cases h19 : c = 'F'
        · have hF : ('F').utf8Size = 1 := by decide
          rcases hp : parseU8 rest with _ | n
          · simp [h18, h19, hp, hF]
          · by_cases h20 : 0 < n ∧ n < 13 <;> simp [h18, h19, hp, h20, hF]
        · simp [h18, h19]
      · simp [h18]
  · rw [if_neg h17]
    simp

lemma parseModifiers_no_missing (toks : List (List Char)) (m : KeyModifiers) :
    parseModifiers toks m ≠ .error .MissingCode := by
  induction toks generalizing m with
  | nil => simp [parseModifiers]
  | cons t rest ih =>
    unfold parseModifiers
    split_ifs <;> first | exact ih _ | simp

/-- Splitting the input never yields an empty segment list, so `from_str`
is the code parse of the last segment followed by the modifier scan of the
earlier segments. -/
lemma from_str_decomp (s : List Char) (pre : List (List Char))
    (codeTok : List Char) (h : splitSep '-' s = pre ++ [codeTok]) :
    from_str s =
      match parseCode codeTok with
      | .error e => .error e
      | .ok code =>
        match parseModifiers pre KeyModifiers.NONE with
        | .error e => .error e
        | .ok m => .ok ⟨code, m⟩ := by
  simp only [from_str, h, List.getLast?_concat, List.dropLast_concat]

/-- The `MissingCode` arm of `from_str` is dead code: splitting always
yields at least one segment, and no later step produces that error. -/
lemma from_str_no_missing (s : List Char) :
    from_str s ≠ .error .MissingCode := by
  have hne := splitSep_ne_nil '-' s
  rw [from_str_decomp s ((splitSep '-' s).dropLast)
    ((splitSep '-' s).getLast hne) (List.dropLast_concat_getLast hne).symm]
  rcases hc : parseCode ((splitSep '-' s).getLast hne) with e | k
  · have := parseCode_no_missing ((splitSep '-' s).getLast hne)
    rw [hc] at this
    simpa using this
  · rcases hm : parseModifiers (splitSep '-' s).dropLast KeyModifiers.NONE
      with e | ms
    · have := parseModifiers_no_missing (splitSep '-' s).dropLast
        KeyModifiers.NONE
      rw [hm] at this
      simpa using this
    · simp

/-- C5 counterexample: parsing the empty string does not fail with
`MissingCode`; it fails with the invalid-code error for the empty token. -/
theorem claim_c5_counterexample :
    from_str [] ≠ .error .MissingCode ∧
    from_str [] = .error (.InvalidCode []) := by decide

/-- C5 (amended): parsing the empty string fails with the invalid-code
error carrying the empty token; the `MissingCode` failure is unreachable on
every input, because splitting always yields at least one segment. -/
theorem claim_c5_empty_input :
    from_str [] = .error (.InvalidCode []) ∧
    ∀ s, from_str s ≠ .error .MissingCode :=
  ⟨by decide, from_str_no_missing⟩

/-- C5 witness: the amended theorem instantiated at the empty string. -/
theorem claim_c5_witness : from_str [] ≠ .error .MissingCode :=
  claim_c5_empty_input.2 []

/-- C6 counterexample: `FU` is an `F`-prefixed token whose suffix is not
parseable as an unsigned integer in `1..=12`, yet the parser fails with the
propagated integer-parse error, not with `InvalidFunctionKey`. -/
theorem claim_c6_counterexample :
    isInvalidFunctionKeyErr (from_str ['F', 'U']) = false ∧
    from_str ['F', 'U'] = .error .IntParseError := by decide

/-- C6 (amended): `F12` parses to `Function(12)`; an `F`-prefixed token
whose nonempty suffix parses as a `u8` outside `1..=12` (such as `F13` and
`F0`) fails with `InvalidFunctionKey`, while a suffix that does not parse as
a `u8` at all fails with the propagated integer-parse error instead. -/
theorem claim_c6_function_keys :
    from_str ['F', '1', '2'] = .ok ⟨.F 12, KeyModifiers.NONE⟩ ∧
    from_str ['F', '1', '3'] = .error (.InvalidFunctionKey 13) ∧
    from_str ['F', '0'] = .error (.InvalidFunctionKey 0) ∧
    (∀ rest n, rest ≠ [] → parseU8 rest = some n → ¬ (1 ≤ n ∧ n ≤ 12) →
      parseCode ('F' :: rest) = .error (.InvalidFunctionKey n)) ∧
    (∀ rest, rest ≠ [] → parseU8 rest = none →
      parseCode ('F' :: rest) = .error .IntParseError) := by
  refine ⟨by decide, by decide, by decide, ?_, ?_⟩
  · intro rest n hne hp hr
    rw [parseCode_F rest hne, hp]
    have : ¬ (0 < n ∧ n < 13) := by omega
    simp [this]
  · intro rest hne hp
    rw [parseCode_F rest hne, hp]

/-- C6 witness: the amended theorem's general clauses instantiated at the
tokens `F99` (out of range) and `FU` (unparseable suffix). -/
theorem claim_c6_witness :
    parseCode ['F', '9', '9'] = .error (.InvalidFunctionKey 99) ∧
    parseCode ['F', 'U'] = .error .IntParseError :=
  ⟨claim_c6_function_keys.2.2.2.1 ['9', '9'] 99 (by decide) (by decide)
      (by decide),
    claim_c6_function_keys.2.2.2.2 ['U'] (by decide) (by decide)⟩


/-- C9: every input whose final `-`-separated segment is empty fails with
the invalid-code error carrying the empty token; the string `-` is exactly
what the formatter emits for the chord `Char '-'` with no modifiers, and the
formatted form of a `Char '-'` chord fails to parse under every modifier
set, so `parse (format c) = c` fails for every chord whose code is
`Char '-'` — an exception beyond the `Up`/`Down` defect. -/
theorem claim_c9_dash_char_roundtrip :
    (∀ s, (splitSep '-' s).getLast? = some [] →
      from_str s = .error (.InvalidCode [])) ∧
    fmtKey ⟨.Char '-', KeyModifiers.NONE⟩ = ['-'] ∧
    (∀ m, from_str (fmtKey ⟨.Char '-', m⟩) = .error (.InvalidCode [])) := by
  refine ⟨?_, by decide, ?_⟩
  · intro s hlast
    obtain ⟨pre, hpre⟩ := List.getLast?_eq_some_iff.mp hlast
    rw [from_str_decomp s pre [] hpre]
    rfl
  · intro m
    rcases m with ⟨s, a, c⟩
    cases s <;> cases a <;> cases c <;> decide

/-- C9 witness: the general empty-final-segment clause instantiated at the
input `x-`. -/
theorem claim_c9_witness :
    (splitSep '-' ['x', '-']).getLast? = some [] ∧
    from_str ['x', '-'] = .error (.InvalidCode []) :=
  ⟨by decide, claim_c9_dash_char_roundtrip.1 ['x', '-'] (by decide)⟩


lemma hasFlag_NONE (u : List Char) : hasFlag KeyModifiers.NONE u = false := by
  unfold hasFlag
  split_ifs <;> rfl

lemma parseModifiers_invalid (t : List Char) (rest : List (List Char))
    (m : KeyModifiers) (h : t ∉ modifierTokens) :
    parseModifiers (t :: rest) m = .error (.InvalidModifier t) := by
  have h1 : ¬ t = ['S'] := fun he => h (by simp [modifierTokens, he])
  have h2 : ¬ t = ['A'] := fun he => h (by simp [modifierTokens, he])
  have h3 : ¬ t = ['C'] := fun he => h (by simp [modifierTokens, he])
  simp [parseModifiers, h1, h2, h3]

lemma applyFlag_not_token (m : KeyModifiers) (t : List Char)
    (h : t ∉ modifierTokens) : applyFlag m t = m := by
  have h1 : ¬ t = ['S'] := fun he => h (by simp [modifierTokens, he])
  have h2 : ¬ t = ['A'] := fun he => h (by simp [modifierTokens, he])
  have h3 : ¬ t = ['C'] := fun he => h (by simp [modifierTokens, he])
  simp [applyFlag, h1, h2, h3]

lemma parseModifiers_step (t : List Char) (rest : List (List Char))
    (m : KeyModifiers) (ht : t ∈ modifierTokens) (hf : hasFlag m t = false) :
    parseModifiers (t :: rest) m = parseModifiers rest (applyFlag m t) := by
  simp only [modifierTokens, List.mem_cons, List.mem_singleton,
    List.not_mem_nil, or_false] at ht
  rcases ht with h | h | h <;>
    (subst h; simp_all [parseModifiers, hasFlag, applyFlag])

lemma parseModifiers_repeat (t : List Char) (rest : List (List Char))
    (m : KeyModifiers) (ht : t ∈ modifierTokens) (hf : hasFlag m t = true) :
    parseModifiers (t :: rest) m = .error (.RepeatedModifier t) := by
  simp only [modifierTokens, List.mem_cons, List.mem_singleton,
    List.not_mem_nil, or_false] at ht
  rcases ht with h | h | h <;>
    (subst h; simp_all [parseModifiers, hasFlag])

lemma hasFlag_applyFlag_self (m : KeyModifiers) (t : List Char)
    (ht : t ∈ modifierTokens) : hasFlag (applyFlag m t) t = true := by
  simp only [modifierTokens, List.mem_cons, List.mem_singleton,
    List.not_mem_nil, or_false] at ht
  rcases ht with h | h | h <;> (subst h; simp [hasFlag, applyFlag])

lemma hasFlag_applyFlag_other (m : KeyModifiers) (t u : List Char)
    (hne : u ≠ t) : hasFlag (applyFlag m t) u = hasFlag m u := by
  unfold applyFlag hasFlag
  split_ifs <;> simp_all

lemma hasFlag_foldl_mono (l : List (List Char)) (m : KeyModifiers)
    (t : List Char) (h : hasFlag m t = true) :
    hasFlag (l.foldl applyFlag m) t = true := by
  induction l generalizing m with
  | nil => exact h
  | cons u us ih =>
    apply ih
    by_cases hut : t = u
    · subst hut
      by_cases htok : t ∈ modifierTokens
      · exact hasFlag_applyFlag_self m t htok
      · rw [applyFlag_not_token m t htok]
        exact h
    · rw [hasFlag_applyFlag_other m u t hut]
      exact h

lemma hasFlag_foldl_of_mem (l : List (List Char)) (m : KeyModifiers)
    (t : List Char) (ht : t ∈ l) (hsub : ∀ u ∈ l, u ∈ modifierTokens) :
    hasFlag (l.foldl applyFlag m) t = true := by
  induction l generalizing m with
  | nil => simp at ht
  | cons u us ih =>
    rcases List.mem_cons.mp ht with h | h
    · subst h
      exact hasFlag_foldl_mono us (applyFlag m t) t
        (hasFlag_applyFlag_self m t (hsub t (by simp)))
    · exact ih (applyFlag m u) h (fun v hv => hsub v (by simp [hv]))

lemma parseModifiers_good_append (good : List (List Char)) (rest : List (List Char))
    (m : KeyModifiers) (hsub : ∀ u ∈ good, u ∈ modifierTokens)
    (hnodup : good.Nodup) (hfresh : ∀ u ∈ good, hasFlag m u = false) :
    parseModifiers (good ++ rest) m =
      parseModifiers rest (good.foldl applyFlag m) := by
  induction good generalizing m with
  | nil => simp
  | cons t gs ih =>
    rw [List.cons_append,
      parseModifiers_step t _ m (hsub t (by simp)) (hfresh t (by simp))]
    refine ih (applyFlag m t) (fun u hu => hsub u (by simp [hu]))
      (List.Nodup.of_cons hnodup) ?_
    intro u hu
    have hne : u ≠ t := fun he => (List.nodup_cons.mp hnodup).1 (he ▸ hu)
    rw [hasFlag_applyFlag_other m t u hne]
    exact hfresh u (by simp [hu])

/-- C8 counterexample: the input `Q-aaa` has the invalid modifier segment
`Q`, but the parse fails with the invalid-code error for `aaa`, not with
`InvalidModifier` as the claim requires. -/
theorem claim_c8_counterexample :
    from_str ['Q', '-', 'a', 'a', 'a'] =
      .error (.InvalidCode ['a', 'a', 'a']) ∧
    from_str ['Q', '-', 'a', 'a', 'a'] ≠
      .error (.InvalidModifier ['Q']) := by decide

/-- C8 (amended): the code token is parsed first, so its failure takes
precedence; when the code token parses, the pre-final segments are scanned
left to right and the first offending segment decides the error — a segment
other than `S`, `A`, `C` fails with `InvalidModifier` for that token, and a
segment repeating an already-seen modifier fails with `RepeatedModifier`.
Concretely `S-S-a` fails with `RepeatedModifier`, `Q-a` with
`InvalidModifier`, and `S-C-a` parses to Shift plus Control plus
`Char 'a'`. -/
theorem claim_c8_modifier_errors :
    from_str ['S', '-', 'S', '-', 'a'] = .error (.RepeatedModifier ['S']) ∧
    from_str ['Q', '-', 'a'] = .error (.InvalidModifier ['Q']) ∧
    from_str ['S', '-', 'C', '-', 'a'] =
      .ok ⟨.Char 'a', ⟨true, false, true⟩⟩ ∧
    (∀ s pre codeTok k, splitSep '-' s = pre ++ [codeTok] →
      parseCode codeTok = .ok k →
      from_str s =
        (parseModifiers pre KeyModifiers.NONE).map (fun m => ⟨k, m⟩)) ∧
    (∀ good t rest, (∀ u ∈ good, u ∈ modifierTokens) → good.Nodup →
      t ∉ modifierTokens →
      parseModifiers (good ++ t :: rest) KeyModifiers.NONE =
        .error (.InvalidModifier t)) ∧
    (∀ good t rest, (∀ u ∈ good, u ∈ modifierTokens) → good.Nodup →
      t ∈ good →
      parseModifiers (good ++ t :: rest) KeyModifiers.NONE =
        .error (.RepeatedModifier t)) := by
  refine ⟨by decide, by decide, by decide, ?_, ?_, ?_⟩
  · intro s pre codeTok k hsplit hk
    rw [from_str_decomp s pre codeTok hsplit, hk]
    rcases parseModifiers pre KeyModifiers.NONE with e | m <;> rfl
  · intro good t rest hsub hnodup ht
    rw [parseModifiers_good_append good (t :: rest) KeyModifiers.NONE hsub
      hnodup (fun u _ => hasFlag_NONE u)]
    exact parseModifiers_invalid t rest _ ht
  · intro good t rest hsub hnodup ht
    rw [parseModifiers_good_append good (t :: rest) KeyModifiers.NONE hsub
      hnodup (fun u _ => hasFlag_NONE u)]
    exact parseModifiers_repeat t rest _ (hsub t ht)
      (hasFlag_foldl_of_mem good KeyModifiers.NONE t ht hsub)

/-- C8 witness: the general clauses instantiated at the inputs `A-x`,
the segments `S` then `Q`, and the segments `S` then `S`. -/
theorem claim_c8_witness :
    from_str ['A', '-', 'x'] =
      (parseModifiers [['A']] KeyModifiers.NONE).map
        (fun m => ⟨.Char 'x', m⟩) ∧
    parseModifiers [['S'], ['Q']] KeyModifiers.NONE =
      .error (.InvalidModifier ['Q']) ∧
    parseModifiers [['S'], ['S']] KeyModifiers.NONE =
      .error (.RepeatedModifier ['S']) :=
  ⟨claim_c8_modifier_errors.2.2.2.1 ['A', '-', 'x'] [['A']] ['x']
      (.Char 'x') (by decide) (by decide),
    claim_c8_modifier_errors.2.2.2.2.1 [['S']] ['Q'] [] (by decide)
      (by decide) (by decide),
    claim_c8_modifier_errors.2.2.2.2.2 [['S']] ['S'] [] (by decide)
      (by decide) (by decide)⟩


/-- C7 counterexample: the token `F007` is `F` followed by three digits, so
under the claim's clause list nothing should accept it, yet it parses
successfully to `Function(7)`. -/
theorem claim_c7_counterexample :
    from_str ['F', '0', '0', '7'] = .ok ⟨.F 7, KeyModifiers.NONE⟩ := by
  decide

/-- C7 (amended): code-token recognition agrees exactly with the priority
scheme of `recognizeCode`: named-table lookup first, then the single-byte
`Char` case, then the `F`-prefix case decided by the full `u8` parse of the
suffix (not merely 1-2 digit suffixes) with its `1..=12` range check, and
every other token failing (invalid code, or the integer-parse and
byte-slice-panic outcomes noted in the definition). -/
theorem claim_c7_recognition (t : List Char) : parseCode t = recognizeCode t := by
  unfold parseCode recognizeCode codeNameTable
  by_cases h1 : t = ['B', 's']
  · subst h1
    decide
  have h1x : ¬ (['B', 's'] = t) := fun he => h1 he.symm
  rw [if_neg h1, List.find?_cons_of_neg _ (by simp [h1x])]
  by_cases h2 : t = ['E', 'n', 't', 'e', 'r']
  · subst h2
    decide
  have h2x : ¬ (['E', 'n', 't', 'e', 'r'] = t) := fun he => h2 he.symm
  rw [if_neg h2, List.find?_cons_of_neg _ (by simp [h2x])]
  by_cases h3 : t = ['L', 'e', 'f', 't']
  · subst h3
    decide
  have h3x : ¬ (['L', 'e', 'f', 't'] = t) := fun he => h3 he.symm
  rw [if_neg h3, List.find?_cons_of_neg _ (by simp [h3x])]
  by_cases h4 : t = ['R', 'i', 'g', 'h', 't']
  · subst h4
    decide
  have h4x : ¬ (['R', 'i', 'g', 'h', 't'] = t) := fun he => h4 he.symm
  rw [if_neg h4, List.find?_cons_of_neg _ (by simp [h4x])]
  by_cases h5 : t = ['U', 'p']
  · subst h5
    decide
  have h5x : ¬ (['U', 'p'] = t) := fun he => h5 he.symm
  rw [if_neg h5, List.find?_cons_of_neg _ (by simp [h5x])]
  by_cases h6 : t = ['H', 'o', 'm', 'e']
  · subst h6
    decide
  have h6x : ¬ (['H', 'o', 'm', 'e'] = t) := fun he => h6 he.symm
  rw [if_neg h6, List.find?_cons_of_neg _ (by simp [h6x])]
  by_cases h7 : t = ['E', 'n', 'd']
  · subst h7
    decide
  have h7x : ¬ (['E', 'n', 'd'] = t) := fun he => h7 he.symm
  rw [if_neg h7, List.find?_cons_of_neg _ (by simp [h7x])]
  by_cases h8 : t = ['P', 'a', 'g', 'e', 'U', 'p']
  · subst h8
    decide
  have h8x : ¬ (['P', 'a', 'g', 'e', 'U', 'p'] = t) := fun he => h8 he.symm
  rw [if_neg h8, List.find?_cons_of_neg _ (by simp [h8x])]
  by_cases h9 : t = ['P', 'a', 'g', 'e', 'D', 'o', 'w', 'n']
  · subst h9
    decide
  have h9x : ¬ (['P', 'a', 'g', 'e', 'D', 'o', 'w', 'n'] = t) := fun he => h9 he.symm
  rw [if_neg h9, List.find?_cons_of_neg _ (by simp [h9x])]
  by_cases h10 : t = ['T', 'a', 'b']
  · subst h10
    decide
  have h10x : ¬ (['T', 'a', 'b'] = t) := fun he => h10 he.symm
  rw [if_neg h10, List.find?_cons_of_neg _ (by simp [h10x])]
  by_cases h11 : t = ['B', 'a', 'c', 'k', 'T', 'a', 'b']
  · subst h11
    decide
  have h11x : ¬ (['B', 'a', 'c', 'k', 'T', 'a', 'b'] = t) := fun he => h11 he.symm
  rw [if_neg h11, List.find?_cons_of_neg _ (by simp [h11x])]
  by_cases h12 : t = ['D', 'e', 'l']
  · subst h12
    decide
  have h12x : ¬ (['D', 'e', 'l'] = t) := fun he => h12 he.symm
  rw [if_neg h12, List.find?_cons_of_neg _ (by simp [h12x])]
  by_cases h13 : t = ['I', 'n', 's', 'e', 'r', 't']
  · subst h13
    decide
  have h13x : ¬ (['I', 'n', 's', 'e', 'r', 't'] = t) := fun he => h13 he.symm
  rw [if_neg h13, List.find?_cons_of_neg _ (by simp [h13x])]
  by_cases h14 : t = ['N', 'u', 'l', 'l']
  · subst h14
    decide
  have h14x : ¬ (['N', 'u', 'l', 'l'] = t) := fun he => h14 he.symm
  rw [if_neg h14, List.find?_cons_of_neg _ (by simp [h14x])]
  by_cases h15 : t = ['E', 's', 'c']
  · subst h15
    decide
  have h15x : ¬ (['E', 's', 'c'] = t) := fun he => h15 he.symm
  rw [if_neg h15, List.find?_cons_of_neg _ (by simp [h15x])]
  rw [List.find?_nil]

/-- C7 witness: the equivalence instantiated at the token `Up`. -/
theorem claim_c7_witness : parseCode ['U', 'p'] = recognizeCode ['U', 'p'] :=
  claim_c7_recognition ['U', 'p']


lemma findKV_insertKV (m : Keymap') (k : KeyEvent) (v : Command)
    (k' : KeyEvent) :
    findKV (insertKV m k v) k' = if k' = k then some v else findKV m k' := by
  induction m with
  | nil => simp [insertKV, findKV]
  | cons p rest ih =>
    rcases p with ⟨k0, v0⟩
    by_cases hk : k = k0
    · subst hk
      by_cases h : k' = k <;> simp [insertKV, findKV, h]
    · simp only [insertKV, if_neg hk, findKV]
      by_cases hk' : k' = k0
      · subst hk'
        have hne : ¬ k' = k := fun he => hk he.symm
        simp [findKV, hne]
      · simp [findKV, hk', ih]

/-- Looking a chord up after a batch of ordered insertions finds the last
inserted binding for that chord, else whatever the base table held. -/
lemma findKV_insertAll (l : List (KeyEvent × Command)) (m : Keymap')
    (k : KeyEvent) :
    findKV (insertAll m l) k =
      match l.reverse.find? (fun p => decide (p.1 = k)) with
      | some p => some p.2
      | none => findKV m k := by
  induction l generalizing m with
  | nil => simp [insertAll]
  | cons p rest ih =>
    rcases p with ⟨k0, v0⟩
    have step : insertAll m ((k0, v0) :: rest) =
        insertAll (insertKV m k0 v0) rest := rfl
    rw [step, ih, List.reverse_cons, List.find?_append]
    rcases hf : rest.reverse.find? (fun p => decide (p.1 = k)) with _ | q <;>
      simp only [hf, Option.none_or, Option.or_some]
    · by_cases hk : k0 = k
      · subst hk
        simp [findKV_insertKV]
      · have hk' : ¬ k = k0 := fun he => hk he.symm
        simp [findKV_insertKV, hk, hk']

/-- C3: the Select-mode table of the default `BindingSet` agrees with the
Normal-mode table on every chord outside the fixed override list, carries
exactly the override bindings on the override chords, and is an independent
copy — inserting into the Select entry of the returned `BindingSet` leaves
the Normal entry untouched. -/
theorem claim_c3_select_inherits_normal :
    (∀ k, k ∉ selectOverrides.map Prod.fst →
      findKV select k = findKV normal k) ∧
    (∀ p ∈ selectOverrides, findKV select p.1 = some p.2) ∧
    (∀ k v, findMode (mutateSelect defaultKeymaps k v) .Normal =
      findMode defaultKeymaps .Normal) := by
  refine ⟨?_, ?_, ?_⟩
  · intro k hk
    rw [show select = insertAll normal selectOverrides from rfl,
      findKV_insertAll]
    have hnone : selectOverrides.reverse.find?
        (fun p => decide (p.1 = k)) = none := by
      rw [List.find?_eq_none]
      intro p hp
      simp only [decide_eq_true_eq]
      intro he
      exact hk (he ▸ List.mem_map_of_mem Prod.fst (List.mem_reverse.mp hp))
    rw [hnone]
  · decide
  · intro k v
    simp [mutateSelect, defaultKeymaps, findMode]

/-- C3 witness: the inheritance clause instantiated at the chord `d`, which
is not overridden, and the independence clause at a concrete insertion. -/
theorem claim_c3_witness :
    (key 'd' ∉ selectOverrides.map Prod.fst ∧
      findKV select (key 'd') = findKV normal (key 'd')) ∧
    findMode (mutateSelect defaultKeymaps (key 'q') .undo) .Normal =
      findMode defaultKeymaps .Normal :=
  ⟨⟨by decide, claim_c3_select_inherits_normal.1 (key 'd') (by decide)⟩,
    claim_c3_select_inherits_normal.2.2 (key 'q') .undo⟩

/-- C10: the chords `K` and space are each inserted twice while the Normal
table is built (`K` first as keep_selections, later as hover; space first as
keep_primary_selection, later as space_mode), last-writer-wins leaves them
bound to hover and space_mode, neither chord is in the Select override list,
and the Select table carries the same two final bindings. -/
theorem claim_c10_duplicate_bindings :
    ((normalList.filter (fun p => decide (p.1 = key 'K'))).map Prod.snd =
      [.keep_selections, .hover]) ∧
    ((normalList.filter (fun p => decide (p.1 = key ' '))).map Prod.snd =
      [.keep_primary_selection, .space_mode]) ∧
    findKV normal (key 'K') = some .hover ∧
    findKV normal (key ' ') = some .space_mode ∧
    key 'K' ∉ selectOverrides.map Prod.fst ∧
    key ' ' ∉ selectOverrides.map Prod.fst ∧
    findKV select (key 'K') = some .hover ∧
    findKV select (key ' ') = some .space_mode := by decide


/-- C4: loading the document `[Insert]` / `y = "x"` yields a `RemapSet`
whose Insert table maps the chord `Char 'y'` (no modifiers) to `Char 'x'`
(no modifiers), and loading `[Bogus]` / `a = "b"` fails with the
unknown-mode error for the name `Bogus`.  The TOML decoding and the mode
name resolution are modelled from the spec, as their code lives outside the
sources. -/
theorem claim_c4_parse_remaps :
    parse_remaps ['[', 'I', 'n', 's', 'e', 'r', 't', ']', '\n',
        'y', ' ', '=', ' ', '"', 'x', '"', '\n'] =
      .ok [(.Insert, [(⟨.Char 'y', KeyModifiers.NONE⟩,
        ⟨.Char 'x', KeyModifiers.NONE⟩)])] ∧
    parse_remaps ['[', 'B', 'o', 'g', 'u', 's', ']', '\n',
        'a', ' ', '=', ' ', '"', 'b', '"'] =
      .error (.UnknownMode ['B', 'o', 'g', 'u', 's']) := by decide

end Keymap
